import Mathlib

/-!
Verification of the VW New Beetle real-dashboard firmware
(`src/dashboard.ino` and the unnamed second variant `src/unnamed/part_000`).

The firmware drives three gauge axes (speedometer, tachometer, fuel) with
AccelStepper motion controllers, homes them against a mechanical stop at
boot, and parses newline-terminated `key=value` telemetry commands.

The AccelStepper library and the Arduino `String`/`Serial` runtime are not
part of this repository; where their behaviour decides a property they are
modelled from the specification (each such definition carries a doc comment
starting with `Modelled from the spec:`).  Everything else is translated
directly from the two sketch files.
-/

/-- One gauge axis of the instrument cluster.  `pos` is
`currentPositionSteps`, `target` is `targetPositionSteps`, `speed` is the
instantaneous signed speed in steps per tick of the discrete motion model. -/
structure AxisState where
  pos : ℤ
  target : ℤ
  speed : ℤ
deriving DecidableEq

/-- Translation of `AccelStepper::distanceToGo`: target minus current position. -/
def distanceToGo (s : AxisState) : ℤ := s.target - s.pos

/-- Translation of `AccelStepper::moveTo`: set the absolute target without
stepping the motor. -/
def moveTo (t : ℤ) (s : AxisState) : AxisState := { s with target := t }

/-- Translation of `AccelStepper::move`: relative move,
`moveTo(currentPosition + delta)`. -/
def move (d : ℤ) (s : AxisState) : AxisState := moveTo (s.pos + d) s

/-- Translation of `AccelStepper::setCurrentPosition`: redefines the origin while the axis
is stationary; current and target position both become `p`, speed 0. -/
def setCurrentPosition (p : ℤ) (s : AxisState) : AxisState :=
  ⟨p, p, 0⟩

/-- Distance needed to decelerate to rest from speed magnitude `v` when the
speed drops by one per tick: `v + (v-1) + ... + 1` (the discrete form of the
spec rule `v² = 2·a·d` for stopping distance). -/
def stopDist : ℕ → ℕ
  | 0 => 0
  | n + 1 => stopDist n + (n + 1)

/-- Step direction for the next tick: the sign of the current speed while
moving (a moving axis keeps stepping in its direction of travel, so a
reversal must pass through speed zero), otherwise the sign of
`distanceToGo`. -/
def tickDir (s : AxisState) : ℤ :=
  if 0 < s.speed then 1
  else if s.speed < 0 then -1
  else if s.pos < s.target then 1 else -1

/-- New speed magnitude after a tick, given the old magnitude `m` and the
remaining distance `rd` measured along the direction of travel (after the
step): decelerate when the target is behind or when the stopping distance
demands it, accelerate up to `mx` while the stopping distance allows it. -/
def tickMag (mx m : ℕ) (rd : ℤ) : ℕ :=
  if rd ≤ 0 then m - 1
  else if m < mx ∧ (stopDist (m + 1) : ℤ) ≤ rd then m + 1
  else if (stopDist m : ℤ) ≤ rd then m
  else m - 1

/-- Modelled from the spec: `AccelStepper::run`, the non-blocking advance
primitive of the Motion Controller (the AccelStepper sources are not part of
this repository; spec §4.1 specifies the algorithm).  Discrete time, unit
acceleration: at most one step per tick; the speed magnitude changes by at
most one per tick, is clamped to `mx`, is limited so that the axis can
always decelerate to rest exactly at the target (`stopDist` against the
remaining distance), and when the target lies behind the direction of
travel the axis first decelerates to zero before reversing.  A tick at rest
at the target is a no-op. -/
def tick (mx : ℕ) (s : AxisState) : AxisState :=
  if s.speed = 0 ∧ s.target = s.pos then s
  else
    let dir := tickDir s
    ⟨s.pos + dir, s.target,
      dir * tickMag mx s.speed.natAbs (dir * (s.target - (s.pos + dir)))⟩

-- Constants of the sketch (identical in both variants).
def STEPS : ℤ := 500

def TACH_ZERO : ℤ := 19
def TACH_SPEED : ℕ := 750
def TACH_ACCEL : ℕ := 500

def FUEL_ZERO : ℤ := 17
def FUEL_SPEED : ℕ := 125
def FUEL_ACCEL : ℕ := 100

def SPEEDO_ZERO : ℤ := 13
def SPEEDO_SPEED : ℕ := 250
def SPEEDO_ACCEL : ℕ := 250

def TACH_SCALE : ℚ := 0.057
def FUEL_SCALE : ℚ := 3.25
def SPEED_SCALE_MPH : ℚ := 1.785

/-- The C/C++ `float`→`long` conversion used implicitly by
`AccelStepper::moveTo(value * SCALE)`: truncation toward zero (floor for
nonnegative values, ceiling for negative ones).  Binary floating-point
rounding of the products is idealised to exact rational arithmetic. -/
def ratTrunc (q : ℚ) : ℤ := if 0 ≤ q then ⌊q⌋ else ⌈q⌉

/-- Basic sanity: a resting axis at its target is a fixed point of `tick`. -/
theorem tick_rest_fixed (mx : ℕ) (t : ℤ) : tick mx ⟨t, t, 0⟩ = ⟨t, t, 0⟩ := by
  simp [tick]

theorem stopDist_succ (n : ℕ) : stopDist (n + 1) = stopDist n + n + 1 := by
  simp [stopDist]
  omega

theorem stopDist_one_le {m : ℕ} (h : 1 ≤ m) : 1 ≤ stopDist m := by
  cases m with
  | zero => omega
  | succ k => rw [stopDist_succ]; omega

theorem stopDist_two_le {m : ℕ} (h : 2 ≤ m) : 3 ≤ stopDist m := by
  match m, h with
  | (k + 2), _ =>
    rw [stopDist_succ, stopDist_succ]
    omega

theorem tick_eq (mx : ℕ) (s : AxisState) (h : ¬(s.speed = 0 ∧ s.target = s.pos)) :
    tick mx s = ⟨s.pos + tickDir s, s.target,
      tickDir s * tickMag mx s.speed.natAbs
        (tickDir s * (s.target - (s.pos + tickDir s)))⟩ := by
  rw [tick, if_neg h]

theorem tick_target (mx : ℕ) (s : AxisState) : (tick mx s).target = s.target := by
  rw [tick]
  split
  · rfl
  · rfl

theorem tickMag_arrive (mx m : ℕ) (rd : ℤ) (h : rd ≤ 0) :
    tickMag mx m rd = m - 1 := by
  rw [tickMag, if_pos h]

theorem tickMag_cases (mx m : ℕ) (rd : ℤ) (h0 : 0 < rd) :
    (tickMag mx m rd = m + 1 ∧ (stopDist (m + 1) : ℤ) ≤ rd) ∨
    (tickMag mx m rd = m ∧ (stopDist m : ℤ) ≤ rd) ∨
    tickMag mx m rd = m - 1 := by
  rw [tickMag, if_neg (by omega)]
  by_cases h1 : m < mx ∧ (stopDist (m + 1) : ℤ) ≤ rd
  · exact Or.inl ⟨if_pos h1, h1.2⟩
  · rw [if_neg h1]
    by_cases h2 : (stopDist m : ℤ) ≤ rd
    · exact Or.inr (Or.inl ⟨if_pos h2, h2⟩)
    · exact Or.inr (Or.inr (if_neg h2))

/-- States from which the controller marches straight to the target: either
at rest, or moving toward the target with enough remaining distance to
decelerate to rest exactly there. -/
def Good (s : AxisState) : Prop :=
  s.speed = 0 ∨
  (0 < s.speed ∧ s.pos < s.target ∧
    (stopDist s.speed.natAbs : ℤ) ≤ s.target - s.pos) ∨
  (s.speed < 0 ∧ s.target < s.pos ∧
    (stopDist s.speed.natAbs : ℤ) ≤ s.pos - s.target)

theorem tick_step (mx : ℕ) (s : AxisState) (hg : Good s)
    (hne : s.pos ≠ s.target) :
    Good (tick mx s) ∧
    ((tick mx s).target - (tick mx s).pos).natAbs + 1 =
      (s.target - s.pos).natAbs := by
  have hcond : ¬(s.speed = 0 ∧ s.target = s.pos) := fun h => hne h.2.symm
  have hteq := tick_eq mx s hcond
  rcases hg with h0 | ⟨hv, hlt, hsd⟩ | ⟨hv, hgt, hsd⟩
  · -- at rest, starting to move
    rcases lt_or_gt_of_ne hne with hp | hp
    · -- target ahead
      have hdir : tickDir s = 1 := by
        rw [tickDir, if_neg (by omega), if_neg (by omega), if_pos hp]
      rw [hdir] at hteq
      have hm : s.speed.natAbs = 0 := by omega
      rw [hm] at hteq
      rw [show (1 : ℤ) * (s.target - (s.pos + 1)) = s.target - s.pos - 1 by ring]
        at hteq
      by_cases hr : s.target - s.pos - 1 ≤ 0
      · rw [tickMag_arrive _ _ _ hr] at hteq
        rw [hteq]
        simp only [Good, one_mul, Int.natAbs_ofNat]
        omega
      · rcases tickMag_cases mx 0 (s.target - s.pos - 1) (by omega) with
          ⟨he, hb⟩ | ⟨he, hb⟩ | he <;>
          rw [he] at hteq <;> rw [hteq] <;>
          simp only [Good, one_mul, Int.natAbs_ofNat] <;> omega
    · -- target behind
      have hdir : tickDir s = -1 := by
        rw [tickDir, if_neg (by omega), if_neg (by omega), if_neg (by omega)]
      rw [hdir] at hteq
      have hm : s.speed.natAbs = 0 := by omega
      rw [hm] at hteq
      rw [show (-1 : ℤ) * (s.target - (s.pos + -1)) = s.pos - s.target - 1
        by ring] at hteq
      by_cases hr : s.pos - s.target - 1 ≤ 0
      · rw [tickMag_arrive _ _ _ hr] at hteq
        rw [hteq]
        simp only [Good, neg_mul, one_mul, Int.natAbs_neg, Int.natAbs_ofNat]
        omega
      · rcases tickMag_cases mx 0 (s.pos - s.target - 1) (by omega) with
          ⟨he, hb⟩ | ⟨he, hb⟩ | he <;>
          rw [he] at hteq <;> rw [hteq] <;>
          simp only [Good, neg_mul, one_mul, Int.natAbs_neg, Int.natAbs_ofNat]
            <;> omega
  · -- moving forward toward the target
    obtain ⟨k, hk⟩ : ∃ k, s.speed.natAbs = k + 1 := ⟨s.speed.natAbs - 1, by omega⟩
    have hdir : tickDir s = 1 := by rw [tickDir, if_pos hv]
    rw [hdir, hk] at hteq
    rw [show (1 : ℤ) * (s.target - (s.pos + 1)) = s.target - s.pos - 1 by ring]
      at hteq
    rw [hk] at hsd
    have hs1 := stopDist_succ k
    have hs2 := stopDist_succ (k + 1)
    have h3 : k = 0 ∨ 3 ≤ stopDist (k + 1) := by
      rcases Nat.eq_zero_or_pos k with h | h
      · exact Or.inl h
      · exact Or.inr (stopDist_two_le (by omega))
    by_cases hr : s.target - s.pos - 1 ≤ 0
    · rw [tickMag_arrive _ _ _ hr] at hteq
      rw [hteq]
      simp only [Good, one_mul, Int.natAbs_ofNat, Nat.add_sub_cancel]
      omega
    · rcases tickMag_cases mx (k + 1) (s.target - s.pos - 1) (by omega) with
        ⟨he, hb⟩ | ⟨he, hb⟩ | he <;>
        rw [he] at hteq <;> rw [hteq] <;>
        simp only [Good, one_mul, Int.natAbs_ofNat, Nat.add_sub_cancel] <;> omega
  · -- moving backward toward the target
    obtain ⟨k, hk⟩ : ∃ k, s.speed.natAbs = k + 1 := ⟨s.speed.natAbs - 1, by omega⟩
    have hdir : tickDir s = -1 := by
      rw [tickDir, if_neg (by omega), if_pos hv]
    rw [hdir, hk] at hteq
    rw [show (-1 : ℤ) * (s.target - (s.pos + -1)) = s.pos - s.target - 1
      by ring] at hteq
    rw [hk] at hsd
    have hs1 := stopDist_succ k
    have hs2 := stopDist_succ (k + 1)
    have h3 : k = 0 ∨ 3 ≤ stopDist (k + 1) := by
      rcases Nat.eq_zero_or_pos k with h | h
      · exact Or.inl h
      · exact Or.inr (stopDist_two_le (by omega))
    by_cases hr : s.pos - s.target - 1 ≤ 0
    · rw [tickMag_arrive _ _ _ hr] at hteq
      rw [hteq]
      simp only [Good, neg_mul, one_mul, Int.natAbs_neg, Int.natAbs_ofNat,
        Nat.add_sub_cancel]
      omega
    · rcases tickMag_cases mx (k + 1) (s.pos - s.target - 1) (by omega) with
        ⟨he, hb⟩ | ⟨he, hb⟩ | he <;>
        rw [he] at hteq <;> rw [hteq] <;>
        simp only [Good, neg_mul, one_mul, Int.natAbs_neg, Int.natAbs_ofNat,
          Nat.add_sub_cancel] <;> omega

/-- From a `Good` state the controller reaches the target, exactly, in as
many ticks as the remaining distance, and comes to rest there. -/
theorem tick_converge (mx : ℕ) :
    ∀ (D : ℕ) (s : AxisState), Good s → (s.target - s.pos).natAbs = D →
      (tick mx)^[D] s = ⟨s.target, s.target, 0⟩ := by
  intro D
  induction D with
  | zero =>
    intro s hg hD
    have hpt : s.pos = s.target := by omega
    have hsp : s.speed = 0 := by
      rcases hg with h | ⟨_, h2, _⟩ | ⟨_, h2, _⟩
      · exact h
      · omega
      · omega
    cases s
    simp_all
  | succ n ih =>
    intro s hg hD
    have hne : s.pos ≠ s.target := by omega
    obtain ⟨hg2, hdec⟩ := tick_step mx s hg hne
    have ht := tick_target mx s
    rw [Function.iterate_succ_apply]
    rw [ih (tick mx s) hg2 (by omega), ht]

/-- Starting at rest at `p` with target `t`, exactly `|t - p|` ticks bring
the axis to rest at `t`. -/
theorem converge_from_rest (mx : ℕ) (p t : ℤ) :
    (tick mx)^[(t - p).natAbs] ⟨p, t, 0⟩ = ⟨t, t, 0⟩ :=
  tick_converge mx _ _ (Or.inl rfl) rfl

/-- Any number of ticks beyond `|t - p|` leaves the axis at rest at `t`. -/
theorem converge_from_rest_of_le (mx : ℕ) (p t : ℤ) (n : ℕ)
    (h : (t - p).natAbs ≤ n) :
    (tick mx)^[n] ⟨p, t, 0⟩ = ⟨t, t, 0⟩ := by
  obtain ⟨k, hk⟩ : ∃ k, n = k + (t - p).natAbs := ⟨n - (t - p).natAbs, by omega⟩
  subst hk
  rw [Function.iterate_add_apply, converge_from_rest]
  exact Function.iterate_fixed (tick_rest_fixed mx t) k

/-- The three gauge axes. -/
inductive Axis
  | speedo
  | tach
  | fuel
deriving DecidableEq

/-- Observable actions of `parseInput`: a serial write, or a `moveTo` motion
command on one axis (the hardware step pulses happen later, inside the
later `run` calls of the control loop).  `Serial.println` is modelled as
writing its argument followed by a newline, matching the response grammar
of the spec. -/
inductive Ev
  | out (s : List Char)
  | move (a : Axis) (t : ℤ)
deriving DecidableEq

def mphKey : List Char := ['m', 'p', 'h']
def kmhKey : List Char := ['k', 'm', 'h']
def rpmKey : List Char := ['r', 'p', 'm']
def fuelKey : List Char := ['f', 'u', 'e', 'l']

/-- The recognized command keys. -/
def validKeys : List (List Char) := [mphKey, kmhKey, rpmKey, fuelKey]

/-- Digit-accumulating helper for `toIntM`. -/
def leadingDigits : ℕ → List Char → ℕ
  | acc, [] => acc
  | acc, c :: cs =>
    if c.isDigit then leadingDigits (10 * acc + (c.toNat - 48)) cs else acc

/-- Modelled from the spec: Arduino `String::toInt` (the Arduino core is not
part of this repository; spec §4.3 gives its semantics: a decimal integer,
optionally signed, parsed with "parse leading digits, stop at first
non-digit, default 0 on no digits"). -/
def toIntM (l : List Char) : ℤ :=
  if l.head? = some '-' then -(leadingDigits 0 l.tail : ℤ)
  else if l.head? = some '+' then (leadingDigits 0 l.tail : ℤ)
  else (leadingDigits 0 l : ℤ)

/-- Translation of `setSpeedMPH`: `speedo.moveTo(mph * SPEED_SCALE_MPH)`. -/
def setSpeedMPH (mph : ℚ) : Ev :=
  Ev.move Axis.speedo (ratTrunc (mph * SPEED_SCALE_MPH))

/-- Translation of `setSpeedKMH`: `setSpeedMPH(kmh * 0.62137)`. -/
def setSpeedKMH (kmh : ℚ) : Ev :=
  setSpeedMPH (kmh * 0.62137)

/-- Translation of `setRPM`: `tach.moveTo(rpm * TACH_SCALE)`. -/
def setRPM (rpm : ℚ) : Ev :=
  Ev.move Axis.tach (ratTrunc (rpm * TACH_SCALE))

/-- Translation of `setFuel`: `fuel.moveTo(percent * FUEL_SCALE)` (takes an
`int`). -/
def setFuel (percent : ℤ) : Ev :=
  Ev.move Axis.fuel (ratTrunc ((percent : ℚ) * FUEL_SCALE))

/-- Translation of the `String::indexOf` call on `'='`: index of the first
equals sign, `-1` if absent. -/
def indexOfEq : List Char → ℤ
  | [] => -1
  | c :: cs =>
    if c = '=' then 0
    else
      let r := indexOfEq cs
      if r < 0 then -1 else r + 1

def oChr : List Char := ['o']
def kLn : List Char := ['k', '\n']
def qLn : List Char := ['?', '\n']
def usageLn : List Char :=
  ['?', ' ', '[', 'r', 'p', 'm', '|', 'k', 'm', 'h', '|', 'f', 'u', 'e', 'l',
   '|', 'm', 'p', 'h', ']', '=', 'v', 'a', 'l', '\n']

/-- Translation of `parseInput` of `src/dashboard.ino`, acting on one completed input line
(the accumulated `inputString`, newline included): the emitted serial writes
and motion commands, in program order.  Unknown keys answer `?`; a missing
or leading `=` answers the usage string. -/
def parseInput (inputString : List Char) : List Ev :=
  let sepIndex := indexOfEq inputString
  Ev.out inputString ::
    (if 0 < sepIndex then
      let key := inputString.take sepIndex.toNat
      let value := inputString.drop (sepIndex.toNat + 1)
      if key = mphKey then
        [Ev.out oChr, setSpeedMPH (toIntM value : ℚ), Ev.out kLn]
      else if key = kmhKey then
        [Ev.out oChr, setSpeedKMH (toIntM value : ℚ), Ev.out kLn]
      else if key = rpmKey then
        [Ev.out oChr, setRPM (toIntM value : ℚ), Ev.out kLn]
      else if key = fuelKey then
        [Ev.out oChr, setFuel (toIntM value), Ev.out kLn]
      else [Ev.out qLn]
    else [Ev.out usageLn])

/-- Translation of `parseInput` of the second variant `src/unnamed/part_000`; identical
except that an unknown key answers the full usage string instead of `?`. -/
def parseInputV2 (inputString : List Char) : List Ev :=
  let sepIndex := indexOfEq inputString
  Ev.out inputString ::
    (if 0 < sepIndex then
      let key := inputString.take sepIndex.toNat
      let value := inputString.drop (sepIndex.toNat + 1)
      if key = mphKey then
        [Ev.out oChr, setSpeedMPH (toIntM value : ℚ), Ev.out kLn]
      else if key = kmhKey then
        [Ev.out oChr, setSpeedKMH (toIntM value : ℚ), Ev.out kLn]
      else if key = rpmKey then
        [Ev.out oChr, setRPM (toIntM value : ℚ), Ev.out kLn]
      else if key = fuelKey then
        [Ev.out oChr, setFuel (toIntM value), Ev.out kLn]
      else [Ev.out usageLn]
    else [Ev.out usageLn])

/-- The three motion controllers of the sketch. -/
structure Dash3 where
  speedo : AxisState
  tach : AxisState
  fuel : AxisState
deriving DecidableEq

/-- Execute one event against the controllers: serial writes change nothing,
a motion command is `moveTo` on its axis. -/
def applyEv (e : Ev) (d : Dash3) : Dash3 :=
  match e with
  | Ev.out _ => d
  | Ev.move Axis.speedo t => { d with speedo := moveTo t d.speedo }
  | Ev.move Axis.tach t => { d with tach := moveTo t d.tach }
  | Ev.move Axis.fuel t => { d with fuel := moveTo t d.fuel }

def applyTrace (es : List Ev) (d : Dash3) : Dash3 :=
  es.foldl (fun d e => applyEv e d) d

/-- One iteration of the homing spin loops and of the motion part of
`loop()`: `speedo.run(); tach.run(); fuel.run();`, each axis with its
configured maximum speed. -/
def jointTick (d : Dash3) : Dash3 :=
  ⟨tick SPEEDO_SPEED d.speedo, tick TACH_SPEED d.tach, tick FUEL_SPEED d.fuel⟩

/-- Phase 1 of `setup()` (seek the mechanical stop): `move(-STEPS)` on every
axis, then run all three until every `distanceToGo()` is zero.  The spin
loop is modelled as 500 joint ticks, which theorem `homingSeek_done` proves
is enough for all three axes to report `distanceToGo() == 0`; further joint
ticks are no-ops by `tick_rest_fixed`. -/
def homingSeek (d : Dash3) : Dash3 :=
  jointTick^[500]
    ⟨move (-STEPS) d.speedo, move (-STEPS) d.tach, move (-STEPS) d.fuel⟩

/-- Phase 2 of `setup()` (offset to true zero): `move` each axis by its zero
offset, then run all three to completion (19 joint ticks suffice, the
largest offset being `TACH_ZERO = 19`). -/
def homingOffset (d : Dash3) : Dash3 :=
  jointTick^[19]
    ⟨move SPEEDO_ZERO d.speedo, move TACH_ZERO d.tach, move FUEL_ZERO d.fuel⟩

/-- Phase 3 of `setup()`: `setCurrentPosition(0)` on every axis. -/
def homingDeclareZero (d : Dash3) : Dash3 :=
  ⟨setCurrentPosition 0 d.speedo, setCurrentPosition 0 d.tach,
   setCurrentPosition 0 d.fuel⟩

/-- Phase 4 of `setup()` (rest state): `setRPM(0); setSpeedMPH(0); setFuel(0);`. -/
def homingRest (d : Dash3) : Dash3 :=
  applyEv (setFuel 0) (applyEv (setSpeedMPH 0) (applyEv (setRPM 0) d))

/-- The complete homing sequence of `setup()`, phases in program order. -/
def homing (d : Dash3) : Dash3 :=
  homingRest (homingDeclareZero (homingOffset (homingSeek d)))

/-- The exit condition of the two homing spin loops. -/
def allDone (d : Dash3) : Prop :=
  distanceToGo d.speedo = 0 ∧ distanceToGo d.tach = 0 ∧ distanceToGo d.fuel = 0

theorem jointTick_iterate (n : ℕ) : ∀ (a b c : AxisState),
    jointTick^[n] ⟨a, b, c⟩ =
      ⟨(tick SPEEDO_SPEED)^[n] a, (tick TACH_SPEED)^[n] b,
       (tick FUEL_SPEED)^[n] c⟩ := by
  induction n with
  | zero => intro a b c; rfl
  | succ k ih =>
    intro a b c
    rw [Function.iterate_succ_apply, Function.iterate_succ_apply,
        Function.iterate_succ_apply, Function.iterate_succ_apply]
    exact ih _ _ _

theorem homingSeek_result (ps ts pt tt pf tf : ℤ) :
    homingSeek ⟨⟨ps, ts, 0⟩, ⟨pt, tt, 0⟩, ⟨pf, tf, 0⟩⟩ =
      ⟨⟨ps + -500, ps + -500, 0⟩, ⟨pt + -500, pt + -500, 0⟩,
       ⟨pf + -500, pf + -500, 0⟩⟩ := by
  unfold homingSeek
  simp only [move, moveTo, STEPS]
  rw [jointTick_iterate,
      converge_from_rest_of_le SPEEDO_SPEED ps (ps + -500) 500 (by omega),
      converge_from_rest_of_le TACH_SPEED pt (pt + -500) 500 (by omega),
      converge_from_rest_of_le FUEL_SPEED pf (pf + -500) 500 (by omega)]

theorem homingOffset_result (a ta b tb c tc : ℤ) :
    homingOffset ⟨⟨a, ta, 0⟩, ⟨b, tb, 0⟩, ⟨c, tc, 0⟩⟩ =
      ⟨⟨a + 13, a + 13, 0⟩, ⟨b + 19, b + 19, 0⟩, ⟨c + 17, c + 17, 0⟩⟩ := by
  unfold homingOffset
  simp only [move, moveTo, SPEEDO_ZERO, TACH_ZERO, FUEL_ZERO]
  rw [jointTick_iterate,
      converge_from_rest_of_le SPEEDO_SPEED a (a + 13) 19 (by omega),
      converge_from_rest_of_le TACH_SPEED b (b + 19) 19 (by omega),
      converge_from_rest_of_le FUEL_SPEED c (c + 17) 19 (by omega)]

theorem ratTrunc_zero : ratTrunc 0 = 0 := by
  simp [ratTrunc]

theorem homing_result (ps ts pt tt pf tf : ℤ) :
    homing ⟨⟨ps, ts, 0⟩, ⟨pt, tt, 0⟩, ⟨pf, tf, 0⟩⟩ =
      ⟨⟨0, 0, 0⟩, ⟨0, 0, 0⟩, ⟨0, 0, 0⟩⟩ := by
  unfold homing
  rw [homingSeek_result, homingOffset_result]
  simp [homingRest, homingDeclareZero, setCurrentPosition, applyEv, setRPM,
    setSpeedMPH, setFuel, moveTo, ratTrunc_zero]

/-- C2: the boot homing sequence, in program order, (1) commands every axis
`STEPS = 500` steps backward and runs all three to `distanceToGo() == 0`,
(2) commands each axis forward by its zero offset (`SPEEDO_ZERO`,
`TACH_ZERO`, `FUEL_ZERO`) and runs all three to `distanceToGo() == 0`
again, (3) calls `setCurrentPosition(0)` on every axis, and (4) commands
each axis to target value 0, leaving every axis at rest at position and
target 0.  Stated for every boot state (arbitrary positions and targets,
speeds zero). -/
theorem spec_c2 (ps ts pt tt pf tf : ℤ) :
    allDone (homingSeek ⟨⟨ps, ts, 0⟩, ⟨pt, tt, 0⟩, ⟨pf, tf, 0⟩⟩) ∧
    allDone (homingOffset (homingSeek ⟨⟨ps, ts, 0⟩, ⟨pt, tt, 0⟩, ⟨pf, tf, 0⟩⟩)) ∧
    homingDeclareZero
        (homingOffset (homingSeek ⟨⟨ps, ts, 0⟩, ⟨pt, tt, 0⟩, ⟨pf, tf, 0⟩⟩)) =
      ⟨⟨0, 0, 0⟩, ⟨0, 0, 0⟩, ⟨0, 0, 0⟩⟩ ∧
    homing ⟨⟨ps, ts, 0⟩, ⟨pt, tt, 0⟩, ⟨pf, tf, 0⟩⟩ =
      ⟨⟨0, 0, 0⟩, ⟨0, 0, 0⟩, ⟨0, 0, 0⟩⟩ := by
  rw [homingSeek_result, homingOffset_result, homing_result]
  refine ⟨?_, ?_, rfl, rfl⟩ <;> simp [allDone, distanceToGo]

/-- C3: immediately after homing, every axis has `currentPositionSteps == 0`
exactly, whatever the position and target state at power-on. -/
theorem spec_c3 (ps ts pt tt pf tf : ℤ) :
    (homing ⟨⟨ps, ts, 0⟩, ⟨pt, tt, 0⟩, ⟨pf, tf, 0⟩⟩).speedo.pos = 0 ∧
    (homing ⟨⟨ps, ts, 0⟩, ⟨pt, tt, 0⟩, ⟨pf, tf, 0⟩⟩).tach.pos = 0 ∧
    (homing ⟨⟨ps, ts, 0⟩, ⟨pt, tt, 0⟩, ⟨pf, tf, 0⟩⟩).fuel.pos = 0 := by
  rw [homing_result]
  exact ⟨rfl, rfl, rfl⟩

theorem indexOfEq_append (k v : List Char) (hk : '=' ∉ k) :
    indexOfEq (k ++ '=' :: v) = k.length := by
  induction k with
  | nil => simp [indexOfEq]
  | cons c cs ih =>
    have hc : ¬ c = '=' := by
      intro h
      exact hk (by simp [h])
    have hcs : '=' ∉ cs := by
      intro h
      exact hk (List.mem_cons_of_mem _ h)
    simp only [List.cons_append, indexOfEq, List.append_eq, if_neg hc, ih hcs]
    rw [if_neg (by omega)]
    simp

theorem drop_append_cons (k : List Char) (c : Char) (v : List Char) :
    (k ++ c :: v).drop (k.length + 1) = v := by
  have h1 : k ++ c :: v = (k ++ [c]) ++ v := by simp
  have h2 : k.length + 1 = (k ++ [c]).length := by simp
  rw [h1, h2, List.drop_left]

theorem parseInput_split (k v : List Char) (hk : '=' ∉ k) (hne : k ≠ []) :
    parseInput (k ++ '=' :: v) =
      Ev.out (k ++ '=' :: v) ::
        (if k = mphKey then [Ev.out oChr, setSpeedMPH (toIntM v : ℚ), Ev.out kLn]
         else if k = kmhKey then
           [Ev.out oChr, setSpeedKMH (toIntM v : ℚ), Ev.out kLn]
         else if k = rpmKey then
           [Ev.out oChr, setRPM (toIntM v : ℚ), Ev.out kLn]
         else if k = fuelKey then [Ev.out oChr, setFuel (toIntM v), Ev.out kLn]
         else [Ev.out qLn]) := by
  have hidx := indexOfEq_append k v hk
  have hlen : (0 : ℤ) < (k.length : ℤ) := by
    cases k with
    | nil => exact absurd rfl hne
    | cons c cs => simp
  simp only [parseInput, hidx, if_pos hlen, Int.toNat_natCast]
  rw [List.take_left, drop_append_cons]

theorem parseInputV2_split (k v : List Char) (hk : '=' ∉ k) (hne : k ≠ []) :
    parseInputV2 (k ++ '=' :: v) =
      Ev.out (k ++ '=' :: v) ::
        (if k = mphKey then [Ev.out oChr, setSpeedMPH (toIntM v : ℚ), Ev.out kLn]
         else if k = kmhKey then
           [Ev.out oChr, setSpeedKMH (toIntM v : ℚ), Ev.out kLn]
         else if k = rpmKey then
           [Ev.out oChr, setRPM (toIntM v : ℚ), Ev.out kLn]
         else if k = fuelKey then [Ev.out oChr, setFuel (toIntM v), Ev.out kLn]
         else [Ev.out usageLn]) := by
  have hidx := indexOfEq_append k v hk
  have hlen : (0 : ℤ) < (k.length : ℤ) := by
    cases k with
    | nil => exact absurd rfl hne
    | cons c cs => simp
  simp only [parseInputV2, hidx, if_pos hlen, Int.toNat_natCast]
  rw [List.take_left, drop_append_cons]

/-- The axis addressed by each recognized key (the dispatch table of the
claims). -/
def axisOfKey (k : List Char) : Axis :=
  if k = mphKey ∨ k = kmhKey then Axis.speedo
  else if k = rpmKey then Axis.tach
  else Axis.fuel

/-- The `scaleFactor[key]` of the claims: unit-to-steps factor per key. -/
def scaleOfKey (k : List Char) : ℚ :=
  if k = mphKey then SPEED_SCALE_MPH
  else if k = kmhKey then 0.62137 * SPEED_SCALE_MPH
  else if k = rpmKey then TACH_SCALE
  else FUEL_SCALE

theorem parseInput_valid (k v : List Char) (h : k ∈ validKeys) :
    parseInput (k ++ '=' :: v) =
      [Ev.out (k ++ '=' :: v), Ev.out oChr,
       Ev.move (axisOfKey k) (ratTrunc ((toIntM v : ℚ) * scaleOfKey k)),
       Ev.out kLn] ∧
    parseInputV2 (k ++ '=' :: v) =
      [Ev.out (k ++ '=' :: v), Ev.out oChr,
       Ev.move (axisOfKey k) (ratTrunc ((toIntM v : ℚ) * scaleOfKey k)),
       Ev.out kLn] := by
  have hmem : k = mphKey ∨ k = kmhKey ∨ k = rpmKey ∨ k = fuelKey := by
    simpa [validKeys] using h
  rcases hmem with rfl | rfl | rfl | rfl
  · rw [parseInput_split _ v (by decide) (by decide),
        parseInputV2_split _ v (by decide) (by decide)]
    constructor <;>
      simp [axisOfKey, scaleOfKey, setSpeedMPH, mphKey, kmhKey, rpmKey, fuelKey]
  · rw [parseInput_split _ v (by decide) (by decide),
        parseInputV2_split _ v (by decide) (by decide)]
    constructor <;>
      simp [axisOfKey, scaleOfKey, setSpeedKMH, setSpeedMPH, mul_assoc,
        mphKey, kmhKey, rpmKey, fuelKey]
  · rw [parseInput_split _ v (by decide) (by decide),
        parseInputV2_split _ v (by decide) (by decide)]
    constructor <;>
      simp [axisOfKey, scaleOfKey, setRPM, mphKey, kmhKey, rpmKey, fuelKey]
  · rw [parseInput_split _ v (by decide) (by decide),
        parseInputV2_split _ v (by decide) (by decide)]
    constructor <;>
      simp [axisOfKey, scaleOfKey, setFuel, mphKey, kmhKey, rpmKey, fuelKey]

/-- C10: every completed input line — accepted, unknown-key, or missing the
separator — is echoed back verbatim as the very first serial output of
`parseInput`, in both source variants. -/
theorem spec_c10 (line : List Char) :
    (∃ r, parseInput line = Ev.out line :: r) ∧
    (∃ r, parseInputV2 line = Ev.out line :: r) :=
  ⟨⟨_, rfl⟩, ⟨_, rfl⟩⟩

/-- C4: for every accepted command line the serial/motion trace is, in this
exact order: the received line echoed verbatim, the single byte `o`, then
the `moveTo` target update, then `k` and a newline — so the `o` write
precedes the motion update and the `k` write follows it. -/
theorem spec_c4 (key v : List Char) (h : key ∈ validKeys) :
    ∃ t, parseInput (key ++ '=' :: v) =
      [Ev.out (key ++ '=' :: v), Ev.out oChr, Ev.move (axisOfKey key) t,
       Ev.out kLn] :=
  ⟨_, (parseInput_valid key v h).1⟩

theorem spec_c4_witness :
    ∃ t, parseInput (mphKey ++ '=' :: ['4', '2', '\n']) =
      [Ev.out (mphKey ++ '=' :: ['4', '2', '\n']), Ev.out oChr,
       Ev.move (axisOfKey mphKey) t, Ev.out kLn] :=
  spec_c4 mphKey ['4', '2', '\n'] (by decide)

/-- C5: a completed line with no `=` separator, a leading `=`, or an
unrecognized key (equivalently: whose text before the first `=` is not a
valid key) gets a `?`-prefixed reply, produces no motion command, and
leaves all three controllers — in particular every `targetPositionSteps` —
unchanged, in both source variants. -/
theorem spec_c5 (line : List Char) (d : Dash3)
    (h : line.take (indexOfEq line).toNat ∉ validKeys) :
    (∃ m, parseInput line = [Ev.out line, Ev.out m] ∧ m.head? = some '?' ∧
      applyTrace (parseInput line) d = d) ∧
    (∃ m, parseInputV2 line = [Ev.out line, Ev.out m] ∧ m.head? = some '?' ∧
      applyTrace (parseInputV2 line) d = d) := by
  have h1 : line.take (indexOfEq line).toNat ≠ mphKey := by
    intro he
    exact h (by rw [he]; simp [validKeys])
  have h2 : line.take (indexOfEq line).toNat ≠ kmhKey := by
    intro he
    exact h (by rw [he]; simp [validKeys])
  have h3 : line.take (indexOfEq line).toNat ≠ rpmKey := by
    intro he
    exact h (by rw [he]; simp [validKeys])
  have h4 : line.take (indexOfEq line).toNat ≠ fuelKey := by
    intro he
    exact h (by rw [he]; simp [validKeys])
  by_cases h0 : 0 < indexOfEq line
  · have hp : parseInput line = [Ev.out line, Ev.out qLn] := by
      simp only [parseInput, if_pos h0, if_neg h1, if_neg h2, if_neg h3,
        if_neg h4]
    have hp2 : parseInputV2 line = [Ev.out line, Ev.out usageLn] := by
      simp only [parseInputV2, if_pos h0, if_neg h1, if_neg h2, if_neg h3,
        if_neg h4]
    exact ⟨⟨qLn, hp, rfl, by rw [hp]; rfl⟩,
           ⟨usageLn, hp2, rfl, by rw [hp2]; rfl⟩⟩
  · have hp : parseInput line = [Ev.out line, Ev.out usageLn] := by
      simp only [parseInput, if_neg h0]
    have hp2 : parseInputV2 line = [Ev.out line, Ev.out usageLn] := by
      simp only [parseInputV2, if_neg h0]
    exact ⟨⟨usageLn, hp, rfl, by rw [hp]; rfl⟩,
           ⟨usageLn, hp2, rfl, by rw [hp2]; rfl⟩⟩

theorem spec_c5_witness :
    (['f', 'o', 'o', '=', '5', '\n'].take
        (indexOfEq ['f', 'o', 'o', '=', '5', '\n']).toNat ∉ validKeys) ∧
    (∃ m, parseInput ['f', 'o', 'o', '=', '5', '\n'] =
        [Ev.out ['f', 'o', 'o', '=', '5', '\n'], Ev.out m] ∧
      m.head? = some '?' ∧
      applyTrace (parseInput ['f', 'o', 'o', '=', '5', '\n'])
          ⟨⟨0, 0, 0⟩, ⟨0, 0, 0⟩, ⟨0, 0, 0⟩⟩ =
        ⟨⟨0, 0, 0⟩, ⟨0, 0, 0⟩, ⟨0, 0, 0⟩⟩) :=
  ⟨by decide,
   (spec_c5 ['f', 'o', 'o', '=', '5', '\n'] ⟨⟨0, 0, 0⟩, ⟨0, 0, 0⟩, ⟨0, 0, 0⟩⟩
     (by decide)).1⟩

/-- C1 counterexample: for `mph=1` the commanded and reached position is
`1` step — the truncation of `1 * 1.785` — while `round(1 * SPEED_SCALE_MPH)`
is `2`; the axis rests at `1`, so it never converges to the claimed
rounded value. -/
theorem spec_c1_counterexample :
    parseInput ['m', 'p', 'h', '=', '1', '\n'] =
      [Ev.out ['m', 'p', 'h', '=', '1', '\n'], Ev.out oChr,
       Ev.move Axis.speedo 1, Ev.out kLn] ∧
    (tick SPEEDO_SPEED)^[1] ⟨0, 1, 0⟩ = ⟨1, 1, 0⟩ ∧
    tick SPEEDO_SPEED ⟨1, 1, 0⟩ = ⟨1, 1, 0⟩ ∧
    round ((toIntM ['1', '\n'] : ℚ) * SPEED_SCALE_MPH) = 2 := by
  have h1 : toIntM ['1', '\n'] = 1 := by decide
  have ht : ratTrunc ((toIntM ['1', '\n'] : ℚ) * scaleOfKey mphKey) = 1 := by
    have hsk : scaleOfKey mphKey = SPEED_SCALE_MPH := rfl
    rw [h1, hsk, ratTrunc, if_pos (by norm_num [SPEED_SCALE_MPH])]
    norm_num [SPEED_SCALE_MPH]
  have htrace := (parseInput_valid mphKey ['1', '\n'] (by decide)).1
  rw [ht] at htrace
  have haxis : axisOfKey mphKey = Axis.speedo := rfl
  rw [haxis] at htrace
  refine ⟨htrace, by decide, by decide, ?_⟩
  rw [h1]
  norm_num [SPEED_SCALE_MPH, round_eq]

/-- C1 amended: after a valid `key=value` command the target of the
commanded axis is `ratTrunc(value * scaleFactor[key])` — the C `float`→`long`
truncation toward zero, not round-to-nearest — and after `|target - p|`
control-loop ticks from rest at any position `p` the axis is at exactly
that target and stays there. -/
theorem spec_c1_amended (key v : List Char) (h : key ∈ validKeys) (mx : ℕ)
    (p : ℤ) :
    Ev.move (axisOfKey key) (ratTrunc ((toIntM v : ℚ) * scaleOfKey key)) ∈
        parseInput (key ++ '=' :: v) ∧
    (tick mx)^[(ratTrunc ((toIntM v : ℚ) * scaleOfKey key) - p).natAbs]
        ⟨p, ratTrunc ((toIntM v : ℚ) * scaleOfKey key), 0⟩ =
      ⟨ratTrunc ((toIntM v : ℚ) * scaleOfKey key),
       ratTrunc ((toIntM v : ℚ) * scaleOfKey key), 0⟩ ∧
    tick mx ⟨ratTrunc ((toIntM v : ℚ) * scaleOfKey key),
             ratTrunc ((toIntM v : ℚ) * scaleOfKey key), 0⟩ =
      ⟨ratTrunc ((toIntM v : ℚ) * scaleOfKey key),
       ratTrunc ((toIntM v : ℚ) * scaleOfKey key), 0⟩ := by
  refine ⟨?_, converge_from_rest mx p _, tick_rest_fixed mx _⟩
  rw [(parseInput_valid key v h).1]
  simp

theorem spec_c1_witness :
    ratTrunc ((toIntM ['1', '0', '0', '\n'] : ℚ) * scaleOfKey rpmKey) = 5 ∧
    (Ev.move (axisOfKey rpmKey)
        (ratTrunc ((toIntM ['1', '0', '0', '\n'] : ℚ) * scaleOfKey rpmKey)) ∈
      parseInput (rpmKey ++ '=' :: ['1', '0', '0', '\n']) ∧
    (tick TACH_SPEED)^[(ratTrunc ((toIntM ['1', '0', '0', '\n'] : ℚ) *
          scaleOfKey rpmKey) - 0).natAbs]
        ⟨0, ratTrunc ((toIntM ['1', '0', '0', '\n'] : ℚ) * scaleOfKey rpmKey),
         0⟩ =
      ⟨ratTrunc ((toIntM ['1', '0', '0', '\n'] : ℚ) * scaleOfKey rpmKey),
       ratTrunc ((toIntM ['1', '0', '0', '\n'] : ℚ) * scaleOfKey rpmKey), 0⟩ ∧
    tick TACH_SPEED
        ⟨ratTrunc ((toIntM ['1', '0', '0', '\n'] : ℚ) * scaleOfKey rpmKey),
         ratTrunc ((toIntM ['1', '0', '0', '\n'] : ℚ) * scaleOfKey rpmKey),
         0⟩ =
      ⟨ratTrunc ((toIntM ['1', '0', '0', '\n'] : ℚ) * scaleOfKey rpmKey),
       ratTrunc ((toIntM ['1', '0', '0', '\n'] : ℚ) * scaleOfKey rpmKey), 0⟩) :=
  ⟨by
    have h1 : toIntM ['1', '0', '0', '\n'] = 100 := by decide
    have hsk : scaleOfKey rpmKey = TACH_SCALE := rfl
    rw [h1, hsk, ratTrunc, if_pos (by norm_num [TACH_SCALE])]
    norm_num [TACH_SCALE],
   spec_c1_amended rpmKey ['1', '0', '0', '\n'] (by decide) TACH_SPEED 0⟩

theorem tick_speed_sign (mx : ℕ) (s : AxisState) :
    (0 < s.speed → 0 ≤ (tick mx s).speed ∧ (tick mx s).pos = s.pos + 1) ∧
    (s.speed < 0 → (tick mx s).speed ≤ 0 ∧ (tick mx s).pos = s.pos - 1) := by
  constructor <;> intro hv
  · have hcond : ¬(s.speed = 0 ∧ s.target = s.pos) := by
      intro hx
      omega
    rw [tick_eq mx s hcond]
    have hdir : tickDir s = 1 := by rw [tickDir, if_pos hv]
    rw [hdir]
    constructor
    · simp
    · simp
  · have hcond : ¬(s.speed = 0 ∧ s.target = s.pos) := by
      intro hx
      omega
    rw [tick_eq mx s hcond]
    have hdir : tickDir s = -1 := by
      rw [tickDir, if_neg (by omega), if_pos hv]
    rw [hdir]
    constructor
    · simp
    · simp
      omega

theorem speed_cross_zero (mx : ℕ) : ∀ (n : ℕ) (s : AxisState), 0 ≤ s.speed →
    ((tick mx)^[n] s).speed < 0 →
    ∃ k, k ≤ n ∧ ((tick mx)^[k] s).speed = 0 := by
  intro n
  induction n with
  | zero =>
    intro s h0 hneg
    simp only [Function.iterate_zero_apply] at hneg
    exact absurd hneg (by omega)
  | succ m ih =>
    intro s h0 hneg
    rcases eq_or_lt_of_le h0 with heq | hpos
    · exact ⟨0, by omega, heq.symm⟩
    · have hstep := ((tick_speed_sign mx s).1 hpos).1
      rw [Function.iterate_succ_apply] at hneg
      obtain ⟨k, hk, hk0⟩ := ih (tick mx s) hstep hneg
      exact ⟨k + 1, by omega, by rw [Function.iterate_succ_apply]; exact hk0⟩

/-- C6: while moving forward an axis only ever steps forward and its speed
cannot jump below zero in one tick (symmetrically when moving backward), so
whenever a trajectory that starts moving forward is later found moving
backward there is an intermediate tick at which the speed is exactly zero:
the axis decelerates to rest before reversing, never reversing at nonzero
speed. -/
theorem spec_c6 (mx : ℕ) (s : AxisState) (n : ℕ) :
    (0 < s.speed → 0 ≤ (tick mx s).speed ∧ (tick mx s).pos = s.pos + 1) ∧
    (s.speed < 0 → (tick mx s).speed ≤ 0 ∧ (tick mx s).pos = s.pos - 1) ∧
    (0 < s.speed → ((tick mx)^[n] s).speed < 0 →
      ∃ k, k ≤ n ∧ ((tick mx)^[k] s).speed = 0) := by
  refine ⟨(tick_speed_sign mx s).1, (tick_speed_sign mx s).2, ?_⟩
  intro hv hneg
  exact speed_cross_zero mx n s (le_of_lt hv) hneg

theorem spec_c6_witness :
    ((tick 3)^[3] ⟨0, -5, 2⟩).speed < 0 ∧
    (0 ≤ (tick 3 ⟨0, -5, 2⟩).speed ∧ (tick 3 ⟨0, -5, 2⟩).pos = 0 + 1) ∧
    (∃ k, k ≤ 3 ∧ ((tick 3)^[k] ⟨0, -5, 2⟩).speed = 0) :=
  ⟨by decide, (spec_c6 3 ⟨0, -5, 2⟩ 3).1 (by decide),
   (spec_c6 3 ⟨0, -5, 2⟩ 3).2.2 (by decide) (by decide)⟩

/-- C7: `kmh=<v>` converts the value to mph by multiplying by `0.62137`
and then runs the mph path (this is the definition of `setSpeedKMH`), so the
speedometer target is `v * 0.62137 * SPEED_SCALE_MPH` steps truncated per
the rounding rule of the implementation; for `kmh=100` that is
`62.137 * 1.785 = 110.914545`, truncated to `110` steps. -/
theorem spec_c7 :
    (∀ v : ℚ, setSpeedKMH v = setSpeedMPH (v * 0.62137)) ∧
    setSpeedKMH 100 = Ev.move Axis.speedo 110 ∧
    ratTrunc ((100 : ℚ) * 0.62137 * SPEED_SCALE_MPH) = 110 ∧
    parseInput ['k', 'm', 'h', '=', '1', '0', '0', '\n'] =
      [Ev.out ['k', 'm', 'h', '=', '1', '0', '0', '\n'], Ev.out oChr,
       Ev.move Axis.speedo 110, Ev.out kLn] := by
  have hval : ratTrunc ((100 : ℚ) * 0.62137 * SPEED_SCALE_MPH) = 110 := by
    rw [ratTrunc, if_pos (by norm_num [SPEED_SCALE_MPH])]
    norm_num [SPEED_SCALE_MPH]
  refine ⟨fun v => rfl, ?_, hval, ?_⟩
  · show Ev.move Axis.speedo (ratTrunc ((100 : ℚ) * 0.62137 * SPEED_SCALE_MPH)) =
      Ev.move Axis.speedo 110
    rw [hval]
  · have htrace := (parseInput_valid kmhKey ['1', '0', '0', '\n'] (by decide)).1
    have h1 : toIntM ['1', '0', '0', '\n'] = 100 := by decide
    have hsk : scaleOfKey kmhKey = 0.62137 * SPEED_SCALE_MPH := rfl
    have h2 : ratTrunc ((toIntM ['1', '0', '0', '\n'] : ℚ) * scaleOfKey kmhKey) =
        110 := by
      rw [h1, hsk, ratTrunc, if_pos (by norm_num [SPEED_SCALE_MPH])]
      norm_num [SPEED_SCALE_MPH]
    rw [h2] at htrace
    have h3 : axisOfKey kmhKey = Axis.speedo := rfl
    rw [h3] at htrace
    exact htrace

/-- C8: a recognized key whose value text has no leading digits (nor a sign
followed by digits) parses to 0 under the permissive numeric-parse
semantics, and the command is silently accepted: verbatim echo, `o`,
a motion command targeting `0 = ratTrunc(0 * scaleFactor[key])` steps,
then `k` and newline — no error report. -/
theorem spec_c8 (key v : List Char) (h : key ∈ validKeys)
    (hv : ∀ c, v.head? = some c → c.isDigit = false ∧ c ≠ '-' ∧ c ≠ '+') :
    toIntM v = 0 ∧
    parseInput (key ++ '=' :: v) =
      [Ev.out (key ++ '=' :: v), Ev.out oChr, Ev.move (axisOfKey key) 0,
       Ev.out kLn] := by
  have h0 : toIntM v = 0 := by
    cases v with
    | nil => rfl
    | cons c cs =>
      obtain ⟨hd, hm, hp⟩ := hv c rfl
      rw [toIntM, if_neg (by simp [hm]), if_neg (by simp [hp])]
      simp [leadingDigits, hd]
  have ht := (parseInput_valid key v h).1
  rw [h0] at ht
  refine ⟨h0, ?_⟩
  simpa [ratTrunc_zero] using ht

theorem spec_c8_witness :
    toIntM ['a', 'b', 'c', '\n'] = 0 ∧
    parseInput (rpmKey ++ '=' :: ['a', 'b', 'c', '\n']) =
      [Ev.out (rpmKey ++ '=' :: ['a', 'b', 'c', '\n']), Ev.out oChr,
       Ev.move (axisOfKey rpmKey) 0, Ev.out kLn] :=
  spec_c8 rpmKey ['a', 'b', 'c', '\n'] (by decide)
    (fun c hc => by
      simp only [List.head?] at hc
      cases hc
      decide)

/-- Physical motor directions issued over the motor shield. -/
inductive MotorDir
  | forward
  | backward
deriving DecidableEq

/-- The pair of step callbacks handed to one `AccelStepper` constructor:
which physical motor direction the logical-forward and logical-backward
callbacks issue (`src/dashboard.ino` lines 56–61). -/
structure StepperWiring where
  forwardCall : MotorDir
  backwardCall : MotorDir
deriving DecidableEq

def speedoWiring : StepperWiring := ⟨MotorDir.forward, MotorDir.backward⟩

def tachWiring : StepperWiring := ⟨MotorDir.forward, MotorDir.backward⟩

/-- The fuel gauge is wired backwards ("oops"), so its callbacks are
swapped: logical forward issues a physical BACKWARD step. -/
def fuelWiring : StepperWiring := ⟨MotorDir.backward, MotorDir.forward⟩

/-- An axis is mechanically reversed when its logical-forward callback
issues a physical backward step. -/
def mechanicallyReversed (w : StepperWiring) : Prop :=
  w.forwardCall = MotorDir.backward

/-- C9 counterexample: the fuel axis refutes "the sign of the scale factor
encodes mechanical reversal": the fuel gauge is the mechanically reversed
one (its forward callback issues a physical backward step), yet
`FUEL_SCALE = 3.25` is strictly positive, so the reversal is not expressed
through the sign of the scale factor. -/
theorem spec_c9_counterexample :
    mechanicallyReversed fuelWiring ∧ 0 < FUEL_SCALE := by
  refine ⟨rfl, ?_⟩
  norm_num [FUEL_SCALE]

/-- C9 amended: every scale factor is positive; mechanical reversal of the
backward-wired fuel gauge is expressed by swapping the forward/backward
step callbacks in its `AccelStepper` constructor, not by the sign of
`FUEL_SCALE`. -/
theorem spec_c9_amended :
    mechanicallyReversed fuelWiring ∧ ¬mechanicallyReversed speedoWiring ∧
    ¬mechanicallyReversed tachWiring ∧
    0 < FUEL_SCALE ∧ 0 < TACH_SCALE ∧ 0 < SPEED_SCALE_MPH := by
  refine ⟨rfl, ?_, ?_, ?_, ?_, ?_⟩
  · simp [mechanicallyReversed, speedoWiring]
  · simp [mechanicallyReversed, tachWiring]
  · norm_num [FUEL_SCALE]
  · norm_num [TACH_SCALE]
  · norm_num [SPEED_SCALE_MPH]
